import Mathlib

/-!
Verification of the Principia numerical-physics core: the frame-tagged
geometric-algebra layer, the body model, the trajectory data model, the
N-body integration driver, and the ULP-distance testing utility.

Definitions are shallow embeddings of the corresponding C++ entities.
Physical quantities are backed by exact scalars (`ℚ` where decidability is
needed, `ℝ` for the geometric layer); reference frames are modelled as type
parameters, so that frame mismatches are unrepresentable, as in the C++
template design.
-/

namespace Principia

/-- A bare 3-component tuple over a scalar type, as in `R3Element<Scalar>`:
pure algebra with no frame tag. -/
@[ext]
structure R3Element (α : Type) where
  x : α
  y : α
  z : α

/-- Componentwise sum of two `R3Element`s. -/
def R3Element.add [Add α] (a b : R3Element α) : R3Element α :=
  ⟨a.x + b.x, a.y + b.y, a.z + b.z⟩

/-- Componentwise negation of an `R3Element`. -/
def R3Element.neg [Neg α] (a : R3Element α) : R3Element α :=
  ⟨-a.x, -a.y, -a.z⟩

/-- The all-zero `R3Element`. -/
def R3Element.null [Zero α] : R3Element α := ⟨0, 0, 0⟩

/-- Euclidean dot product of two `R3Element`s. -/
def Dot [Add α] [Mul α] (a b : R3Element α) : α :=
  a.x * b.x + a.y * b.y + a.z * b.z

/-- Cross product of two `R3Element`s. -/
def Cross [Mul α] [Sub α] (a b : R3Element α) : R3Element α :=
  ⟨a.y * b.z - a.z * b.y, a.z * b.x - a.x * b.z, a.x * b.y - a.y * b.x⟩

/-- Euclidean norm of a real `R3Element`: the square root of the dot product
with itself. -/
noncomputable def R3Element.Norm (a : R3Element ℝ) : ℝ :=
  Real.sqrt (Dot a a)

/-- Modelled from the spec: `geometry/grassmann.hpp` is not in the visible
source.  A grade-1 multivector (`Vector<Scalar, Frame>`) wraps an
`R3Element` with a frame tag. -/
@[ext]
structure Vector (α : Type) (Frame : Type) where
  coordinates : R3Element α

/-- Modelled from the spec: a grade-2 multivector (`Bivector<Scalar,
Frame>`) wraps an `R3Element` with a frame tag; bivectors arise from the
wedge of two vectors. -/
@[ext]
structure Bivector (α : Type) (Frame : Type) where
  coordinates : R3Element α

/-- Modelled from the spec: a grade-3 multivector (`Trivector<Scalar,
Frame>`) wraps a single scalar (the volume/determinant) with a frame
tag. -/
@[ext]
structure Trivector (α : Type) (Frame : Type) where
  coordinates : α

instance [Zero α] : Zero (Vector α F) := ⟨⟨R3Element.null⟩⟩

instance [Zero α] : Zero (Bivector α F) := ⟨⟨R3Element.null⟩⟩

instance [Zero α] : Zero (Trivector α F) := ⟨⟨0⟩⟩

instance [Add α] : Add (Bivector α F) := ⟨fun a b => ⟨a.coordinates.add b.coordinates⟩⟩

instance [Neg α] : Neg (Bivector α F) := ⟨fun a => ⟨a.coordinates.neg⟩⟩

/-- Coordinates of the zero bivector. -/
@[simp]
theorem Bivector.coords_of_zero [Zero α] :
    (0 : Bivector α F).coordinates = R3Element.null := rfl

/-- Coordinates of a negated bivector. -/
@[simp]
theorem Bivector.neg_coordinates [Neg α] (a : Bivector α F) :
    (-a).coordinates = a.coordinates.neg := rfl

/-- Coordinates of a sum of bivectors. -/
@[simp]
theorem Bivector.add_coordinates [Add α] (a b : Bivector α F) :
    (a + b).coordinates = a.coordinates.add b.coordinates := rfl

/-- Coordinates of the zero vector. -/
@[simp]
theorem Vector.coords_of_zero_vector [Zero α] :
    (0 : Vector α F).coordinates = R3Element.null := rfl

/-- Coordinates of the zero trivector. -/
@[simp]
theorem Trivector.coords_of_zero_trivector [Zero α] :
    (0 : Trivector α F).coordinates = (0 : α) := rfl

/-- Modelled from the spec: `Wedge(Vector, Vector) → Bivector`, the
antisymmetric bilinear product; in three dimensions its coordinates are the
cross product of the operand coordinates. -/
def Wedge [Mul α] [Sub α] (u v : Vector α F) : Bivector α F :=
  ⟨Cross u.coordinates v.coordinates⟩

/-- Modelled from the spec: `InnerProduct(Vector, Vector) → Scalar`, the
dot product of the coordinates. -/
def Vector.InnerProduct [Add α] [Mul α] (u v : Vector α F) : α :=
  Dot u.coordinates v.coordinates

/-- Modelled from the spec: `InnerProduct(Bivector, Bivector) → Scalar`,
the dot product of the coordinates. -/
def Bivector.InnerProduct [Add α] [Mul α] (u v : Bivector α F) : α :=
  Dot u.coordinates v.coordinates

/-- Modelled from the spec: `InnerProduct(Trivector, Trivector) → Scalar`,
the product of the wrapped scalars. -/
def Trivector.InnerProduct [Mul α] (u v : Trivector α F) : α :=
  u.coordinates * v.coordinates

/-- Norm of a real vector, the Euclidean norm of its coordinates. -/
noncomputable def Vector.Norm (u : Vector ℝ F) : ℝ :=
  u.coordinates.Norm

/-- Norm of a real bivector, the Euclidean norm of its coordinates. -/
noncomputable def Bivector.Norm (u : Bivector ℝ F) : ℝ :=
  u.coordinates.Norm

/-- Norm of a real trivector, the absolute value of its scalar. -/
def Trivector.Norm (u : Trivector ℝ F) : ℝ :=
  |u.coordinates|

/-- Modelled from the spec: `Commutator(Bivector, Bivector) → Bivector`,
the Lie bracket making bivectors the Lie algebra of the 3-D rotation group;
its coordinates are the cross product of the operand coordinates. -/
def Commutator [Mul α] [Sub α] (a b : Bivector α F) : Bivector α F :=
  ⟨Cross a.coordinates b.coordinates⟩

/-- C4: for all vectors u and v of the same frame, `Wedge(u,v) = -Wedge(v,u)`
(antisymmetry, exact in this real-scalar model, hence within any
floating-point tolerance) and `Wedge(u,u)` is the zero bivector exactly,
including for degenerate inputs. -/
theorem wedge_antisymmetric_and_alternating (F : Type) (u v : Vector ℝ F) :
    Wedge u v = -Wedge v u ∧ Wedge u u = (0 : Bivector ℝ F) := by
  constructor
  · ext <;> simp [Wedge, Cross, R3Element.neg] <;> ring
  · ext <;> simp [Wedge, Cross, R3Element.null] <;> ring

/-- C6: for all bivectors p, q, r of the same frame, the commutator is
exactly antisymmetric and satisfies the Jacobi identity exactly (hence
within the spec's ~1e-13 relative tolerance): bivectors under this bracket
and addition form the Lie algebra of the 3-D rotation group. -/
theorem commutator_antisymmetric_and_jacobi (F : Type) (p q r : Bivector ℝ F) :
    Commutator p q = -Commutator q p ∧
      Commutator p (Commutator q r) + Commutator q (Commutator r p) +
        Commutator r (Commutator p q) = (0 : Bivector ℝ F) := by
  constructor
  · ext <;> simp [Commutator, Cross, R3Element.neg] <;> ring
  · ext <;> simp [Commutator, Cross, R3Element.add, R3Element.null] <;> ring

/-- Dot of a real `R3Element` with itself is nonnegative. -/
theorem dot_self_nonneg (a : R3Element ℝ) : 0 ≤ Dot a a := by
  simp only [Dot]
  nlinarith [mul_self_nonneg a.x, mul_self_nonneg a.y, mul_self_nonneg a.z]

/-- Dot of a real `R3Element` with itself vanishes exactly on the zero
element. -/
theorem dot_self_eq_zero_iff (a : R3Element ℝ) :
    Dot a a = 0 ↔ a = R3Element.null := by
  constructor
  · intro h
    simp only [Dot] at h
    have hx : a.x = 0 := by nlinarith [sq_nonneg a.x, sq_nonneg a.y, sq_nonneg a.z]
    have hy : a.y = 0 := by nlinarith [sq_nonneg a.x, sq_nonneg a.y, sq_nonneg a.z]
    have hz : a.z = 0 := by nlinarith [sq_nonneg a.x, sq_nonneg a.y, sq_nonneg a.z]
    ext <;> simp [R3Element.null, hx, hy, hz]
  · intro h
    simp [h, Dot, R3Element.null]

/-- The squared Euclidean norm of a real `R3Element` is the dot product with
itself. -/
theorem norm_sq_eq_dot (a : R3Element ℝ) : a.Norm ^ 2 = Dot a a := by
  simpa [R3Element.Norm] using Real.sq_sqrt (dot_self_nonneg a)

/-- C5: for every multivector u of grade 1, 2 or 3 over any frame,
`InnerProduct(u,u) = Norm(u)^2` (exactly, in this real-scalar model),
`InnerProduct(u,u) ≥ 0` with equality exactly when u is the zero element,
and `InnerProduct` is symmetric on same-grade operands. -/
theorem inner_product_positive_definite_symmetric (F : Type) :
    (∀ u : Vector ℝ F, u.InnerProduct u = u.Norm ^ 2 ∧
        0 ≤ u.InnerProduct u ∧ (u.InnerProduct u = 0 ↔ u = 0)) ∧
    (∀ u v : Vector ℝ F, u.InnerProduct v = v.InnerProduct u) ∧
    (∀ u : Bivector ℝ F, u.InnerProduct u = u.Norm ^ 2 ∧
        0 ≤ u.InnerProduct u ∧ (u.InnerProduct u = 0 ↔ u = 0)) ∧
    (∀ u v : Bivector ℝ F, u.InnerProduct v = v.InnerProduct u) ∧
    (∀ u : Trivector ℝ F, u.InnerProduct u = u.Norm ^ 2 ∧
        0 ≤ u.InnerProduct u ∧ (u.InnerProduct u = 0 ↔ u = 0)) ∧
    (∀ u v : Trivector ℝ F, u.InnerProduct v = v.InnerProduct u) := by
  refine ⟨fun u => ⟨?_, ?_, ?_⟩, fun u v => ?_,
          fun u => ⟨?_, ?_, ?_⟩, fun u v => ?_,
          fun u => ⟨?_, ?_, ?_⟩, fun u v => ?_⟩
  · rw [Vector.InnerProduct, Vector.Norm, norm_sq_eq_dot]
  · exact dot_self_nonneg u.coordinates
  · rw [Vector.InnerProduct, dot_self_eq_zero_iff]
    constructor
    · intro h; ext1; simpa using h
    · intro h; simp [h]
  · simp only [Vector.InnerProduct, Dot]; ring
  · rw [Bivector.InnerProduct, Bivector.Norm, norm_sq_eq_dot]
  · exact dot_self_nonneg u.coordinates
  · rw [Bivector.InnerProduct, dot_self_eq_zero_iff]
    constructor
    · intro h; ext1; simpa using h
    · intro h; simp [h]
  · simp only [Bivector.InnerProduct, Dot]; ring
  · simp [Trivector.InnerProduct, Trivector.Norm, sq_abs, sq]
  · exact mul_self_nonneg u.coordinates
  · rw [Trivector.InnerProduct, mul_self_eq_zero]
    constructor
    · intro h; ext1; simpa using h
    · intro h; simp [h]
  · simp only [Trivector.InnerProduct]; ring

/-- The gravitational constant G, from `quantities/constants.hpp`
(6.67384e-11 in SI units), as an exact rational. -/
def GravitationalConstant : ℚ := 667384 / 10 ^ 16

/-- A massive body, as in `MassiveBody`: it owns a gravitational parameter
and a mass, which are mutually derivable through `GravitationalConstant`. -/
structure MassiveBody where
  gravitational_parameter_ : ℚ
  mass_ : ℚ
deriving DecidableEq

/-- The `MassiveBody(GravitationalParameter)` constructor: stores the
gravitational parameter, derives the mass by division by G, and `CHECK`s
that the gravitational parameter is nonzero — a fatal error, modelled as
`none`. -/
def MassiveBody.ofGravitationalParameter (gp : ℚ) : Option MassiveBody :=
  if gp = 0 then none else some ⟨gp, gp / GravitationalConstant⟩

/-- The `MassiveBody(Mass)` constructor: stores the mass, derives the
gravitational parameter by multiplication by G, and `CHECK`s that the mass
is nonzero — a fatal error, modelled as `none`. -/
def MassiveBody.ofMass (m : ℚ) : Option MassiveBody :=
  if m = 0 then none else some ⟨m * GravitationalConstant, m⟩

/-- Accessor `MassiveBody::gravitational_parameter()`. -/
def MassiveBody.gravitational_parameter (b : MassiveBody) : ℚ :=
  b.gravitational_parameter_

/-- Accessor `MassiveBody::mass()`. -/
def MassiveBody.mass (b : MassiveBody) : ℚ :=
  b.mass_

/-- Capability query `MassiveBody::is_massless()`, which returns `false`. -/
def MassiveBody.is_massless (_ : MassiveBody) : Bool :=
  false

/-- Capability query `MassiveBody::is_oblate()`, which (for a `MassiveBody`
that is not an `OblateBody`) returns `false`. -/
def MassiveBody.is_oblate (_ : MassiveBody) : Bool :=
  false

/-- C2: constructing a `MassiveBody` from a zero mass or a zero
gravitational parameter fails fast at construction (no body is produced, no
silent coercion to a default), and construction succeeds for every nonzero
mass or gravitational parameter. -/
theorem massive_body_zero_rejected_nonzero_accepted (m gp : ℚ) :
    ((MassiveBody.ofMass m).isSome ↔ m ≠ 0) ∧
      ((MassiveBody.ofGravitationalParameter gp).isSome ↔ gp ≠ 0) := by
  constructor
  · rw [MassiveBody.ofMass]
    by_cases h : m = 0 <;> simp [h]
  · rw [MassiveBody.ofGravitationalParameter]
    by_cases h : gp = 0 <;> simp [h]

/-- Witness for C2 at the concrete inputs: mass 2 constructs, gravitational
parameter 0 fails fast. -/
theorem massive_body_zero_rejected_nonzero_accepted_witness :
    (MassiveBody.ofMass 2).isSome = true ∧
      (MassiveBody.ofGravitationalParameter 0).isSome = false :=
  ⟨(massive_body_zero_rejected_nonzero_accepted 2 3).1.mpr (by norm_num),
    by simpa using (massive_body_zero_rejected_nonzero_accepted 2 0).2⟩

/-- C3: for a body constructed from a nonzero mass m, `mass()` returns m and
`gravitational_parameter()` returns m·G; for a body constructed from a
nonzero gravitational parameter μ, `gravitational_parameter()` returns μ and
`mass()` returns μ/G; in both cases the two representations agree exactly
(`gravitational_parameter() = mass()·G`) in this exact-rational model. -/
theorem massive_body_mass_and_parameter_derivable (m gp : ℚ)
    (hm : m ≠ 0) (hgp : gp ≠ 0) :
    (∃ b, MassiveBody.ofMass m = some b ∧ b.mass = m ∧
        b.gravitational_parameter = m * GravitationalConstant ∧
        b.gravitational_parameter = b.mass * GravitationalConstant) ∧
    (∃ b, MassiveBody.ofGravitationalParameter gp = some b ∧
        b.gravitational_parameter = gp ∧
        b.mass = gp / GravitationalConstant ∧
        b.gravitational_parameter = b.mass * GravitationalConstant) := by
  have hG : GravitationalConstant ≠ 0 := by
    rw [GravitationalConstant]; norm_num
  constructor
  · refine ⟨⟨m * GravitationalConstant, m⟩, ?_, rfl, rfl, rfl⟩
    rw [MassiveBody.ofMass, if_neg hm]
  · refine ⟨⟨gp, gp / GravitationalConstant⟩, ?_, rfl, rfl, ?_⟩
    · rw [MassiveBody.ofGravitationalParameter, if_neg hgp]
    · show gp = gp / GravitationalConstant * GravitationalConstant
      field_simp

/-- Witness for C3 at the concrete inputs m = 2 and μ = 3. -/
theorem massive_body_mass_and_parameter_derivable_witness :
    (∃ b, MassiveBody.ofMass 2 = some b ∧ b.mass = 2 ∧
        b.gravitational_parameter = 2 * GravitationalConstant ∧
        b.gravitational_parameter = b.mass * GravitationalConstant) ∧
    (∃ b, MassiveBody.ofGravitationalParameter 3 = some b ∧
        b.gravitational_parameter = 3 ∧
        b.mass = 3 / GravitationalConstant ∧
        b.gravitational_parameter = b.mass * GravitationalConstant) :=
  massive_body_mass_and_parameter_derivable 2 3 (by norm_num) (by norm_num)

/-- C9: every `MassiveBody` (as opposed to an `OblateBody`) reports
`is_massless() = false` and `is_oblate() = false`, regardless of the mass or
gravitational parameter it holds. -/
theorem massive_body_not_massless_not_oblate (b : MassiveBody) :
    b.is_massless = false ∧ b.is_oblate = false :=
  ⟨rfl, rfl⟩

/-- Modelled from the spec: `physics/trajectory.hpp` is not in the visible
source.  A `Trajectory<Frame>` is an append-only, time-ordered sequence of
(time, state) samples for one body; the state type (position and velocity in
the trajectory's frame) is abstracted as `σ`. -/
structure Trajectory (σ : Type) where
  samples : List (ℚ × σ)

/-- The time of the last appended sample, if any. -/
def Trajectory.lastTime (tr : Trajectory σ) : Option ℚ :=
  tr.samples.getLast?.map Prod.fst

/-- Modelled from the spec: `Trajectory::Append(position, velocity, time)`
requires `time` strictly greater than the last appended time, or an empty
trajectory; violating this is a fatal error (modelled as `none`), not a
silent no-op. -/
def Trajectory.Append (tr : Trajectory σ) (x : σ) (t : ℚ) :
    Option (Trajectory σ) :=
  match tr.samples.getLast? with
  | none => some ⟨tr.samples ++ [(t, x)]⟩
  | some s => if s.1 < t then some ⟨tr.samples ++ [(t, x)]⟩ else none

/-- The ordered list of sample times of a trajectory. -/
def Trajectory.times (tr : Trajectory σ) : List ℚ :=
  tr.samples.map Prod.fst

/-- C7: `Append(position, velocity, time)` succeeds if and only if the
trajectory is empty or `time` is strictly greater than the last appended
time; a fresh trajectory accepts its first sample unconditionally; a
successful append actually records the sample (nothing is silently
ignored). -/
theorem trajectory_append_iff_strictly_increasing (σ : Type)
    (tr : Trajectory σ) (x : σ) (t : ℚ) :
    ((tr.Append x t).isSome = true ↔
        tr.samples = [] ∨ ∃ tl, tr.lastTime = some tl ∧ tl < t) ∧
    (tr.samples = [] → tr.Append x t = some ⟨[(t, x)]⟩) ∧
    (∀ tr', tr.Append x t = some tr' →
        tr'.samples = tr.samples ++ [(t, x)]) := by
  refine ⟨?_, ?_, ?_⟩
  · rw [Trajectory.Append, Trajectory.lastTime]
    cases hl : tr.samples.getLast? with
    | none =>
      simp only [Option.isSome_some, true_iff]
      exact Or.inl (List.getLast?_eq_none_iff.mp hl)
    | some s =>
      by_cases hlt : s.1 < t
      · simp only [if_pos hlt, Option.isSome_some, true_iff, hl]
        exact Or.inr ⟨s.1, rfl, hlt⟩
      · simp only [if_neg hlt, Option.isSome_none, hl, Option.map_some]
        constructor
        · intro h; cases h
        · rintro (h | ⟨tl, htl, hlt'⟩)
          · rw [h] at hl; simp at hl
          · cases htl; exact absurd hlt' hlt
  · intro h
    rw [Trajectory.Append, h]
    simp
  · intro tr' h
    rw [Trajectory.Append] at h
    split at h
    · cases h; rfl
    · split at h
      · cases h; rfl
      · cases h

/-- Witness for C7: a one-sample trajectory accepts a later time and the
sample is recorded, and a fresh trajectory accepts its first sample. -/
theorem trajectory_append_iff_strictly_increasing_witness :
    ((Trajectory.Append ⟨[((0 : ℚ), ())]⟩ () 1).isSome = true) ∧
      (Trajectory.Append (⟨[]⟩ : Trajectory Unit) () 0 = some ⟨[(0, ())]⟩) :=
  ⟨(trajectory_append_iff_strictly_increasing Unit ⟨[(0, ())]⟩ () 1).1.mpr
      (Or.inr ⟨0, rfl, by norm_num⟩),
    (trajectory_append_iff_strictly_increasing Unit ⟨[]⟩ () 0).2.1 rfl⟩

/-- Modelled from the spec: error taxonomy of `NBodySystem::Integrate`,
reported fatally before any trajectory is mutated. -/
inductive IntegrationError where
  | nonPositiveStep
  | invalidSamplingPeriod
  | missingInitialState
deriving DecidableEq

/-- Modelled from the spec: `physics/n_body_system.hpp` is not in the
visible source.  The N-body system owns one trajectory per body, all in one
frame. -/
structure NBodySystem (σ : Type) where
  trajectories : List (Trajectory σ)

/-- The last sample of every trajectory, or `none` if some trajectory is
empty. -/
def lastSamples : List (Trajectory σ) → Option (List (ℚ × σ))
  | [] => some []
  | tr :: rest =>
    match tr.samples.getLast?, lastSamples rest with
    | some s, some l => some (s :: l)
    | _, _ => none

/-- Modelled from the spec: the integration loop.  At each step the joint
per-body state is advanced by the integrator (`step`, standing for the SPRK
stepper driven by the force evaluation), the simulated time advances by
`Δt`, and at every `sp`-th step the new state is appended to every body's
trajectory at the same time stamp. -/
def integrateLoop (step : List σ → List σ) (Δt : ℚ) (sp : ℕ) :
    ℕ → ℕ → ℚ → List σ → List (Trajectory σ) →
      List σ × List (Trajectory σ)
  | 0, _, _, s, trajs => (s, trajs)
  | n + 1, k, t, s, trajs =>
    integrateLoop step Δt sp n (k + 1) (t + Δt) (step s)
      (if (k + 1) % sp = 0
        then (trajs.zip (step s)).map
          (fun p => ⟨p.1.samples ++ [(t + Δt, p.2)]⟩)
        else trajs)

/-- Modelled from the spec: `NBodySystem::Integrate(integrator, tmax, Δt,
sampling_period)`.  It validates its arguments (non-positive `Δt`, zero
sampling period, or an empty trajectory with no initial state are fatal
errors reported before any trajectory is mutated), then runs the
integration loop for `⌊tmax/Δt⌋` steps starting from the last appended
samples.  The error (if any) and the resulting system are returned. -/
def NBodySystem.Integrate (step : List σ → List σ) (sys : NBodySystem σ)
    (tmax Δt : ℚ) (sp : ℕ) :
    Option IntegrationError × NBodySystem σ :=
  if Δt ≤ 0 then (some IntegrationError.nonPositiveStep, sys)
  else if sp = 0 then (some IntegrationError.invalidSamplingPeriod, sys)
  else
    match lastSamples sys.trajectories with
    | none => (some IntegrationError.missingInitialState, sys)
    | some ls =>
      let t0 := match ls.head? with
        | some s => s.1
        | none => 0
      (none,
        ⟨(integrateLoop step Δt sp (⌊tmax / Δt⌋.toNat) 0 t0
            (ls.map Prod.snd) sys.trajectories).2⟩)

/-- When every trajectory has a last sample, there are as many last samples
as trajectories. -/
theorem lastSamples_length {trajs : List (Trajectory σ)}
    {ls : List (ℚ × σ)} (h : lastSamples trajs = some ls) :
    ls.length = trajs.length := by
  induction trajs generalizing ls with
  | nil => cases h; rfl
  | cons tr rest ih =>
    rw [lastSamples] at h
    cases hl : tr.samples.getLast? with
    | none => rw [hl] at h; cases h
    | some s =>
      cases hrest : lastSamples rest with
      | none => rw [hl, hrest] at h; cases h
      | some l => rw [hl, hrest] at h; cases h; simp [ih hrest]

/-- Mapping a function of the first components over a zip of equal-length
lists is mapping it over the first list. -/
theorem zip_map_fst {α β γ : Type} (f : α → γ) :
    ∀ (l₁ : List α) (l₂ : List β), l₁.length = l₂.length →
      (l₁.zip l₂).map (fun p => f p.1) = l₁.map f := by
  intro l₁
  induction l₁ with
  | nil => intro l₂ _; rfl
  | cons a l ih =>
    intro l₂ h
    cases l₂ with
    | nil => cases h
    | cons b l' =>
      have h' : l.length = l'.length := by simpa using h
      simp [ih l' h']

/-- The integration loop appends the same list of time stamps to every
trajectory: after the loop, each trajectory's times are its old times
followed by one common suffix. -/
theorem integrateLoop_times (step : List σ → List σ)
    (hstep : ∀ l, (step l).length = l.length) (Δt : ℚ) (sp : ℕ) :
    ∀ (n k : ℕ) (t : ℚ) (s : List σ) (trajs : List (Trajectory σ)),
      s.length = trajs.length →
      ∃ ts : List ℚ,
        (integrateLoop step Δt sp n k t s trajs).2.map Trajectory.times
          = trajs.map (fun tr => tr.times ++ ts) := by
  intro n
  induction n with
  | zero =>
    intro k t s trajs _
    exact ⟨[], by simp [integrateLoop]⟩
  | succ n ih =>
    intro k t s trajs hlen
    rw [integrateLoop]
    by_cases hdue : (k + 1) % sp = 0
    · rw [if_pos hdue]
      have hzlen : (step s).length =
          ((trajs.zip (step s)).map
            (fun p : Trajectory σ × σ =>
              (⟨p.1.samples ++ [(t + Δt, p.2)]⟩ : Trajectory σ))).length := by
        simp [List.length_zip, hstep s, hlen]
      obtain ⟨ts, hts⟩ := ih (k + 1) (t + Δt) (step s) _ hzlen
      refine ⟨(t + Δt) :: ts, ?_⟩
      rw [hts, List.map_map]
      have : ((fun tr : Trajectory σ => tr.times ++ ts) ∘
          (fun p : Trajectory σ × σ =>
            (⟨p.1.samples ++ [(t + Δt, p.2)]⟩ : Trajectory σ)))
          = fun p : Trajectory σ × σ =>
              p.1.times ++ ((t + Δt) :: ts) := by
        funext p
        simp [Trajectory.times]
      rw [this]
      exact zip_map_fst (fun tr => tr.times ++ ((t + Δt) :: ts)) trajs
        (step s) (by rw [hstep s, hlen])
    · rw [if_neg hdue]
      exact ih (k + 1) (t + Δt) (step s) trajs (by rw [hstep s, hlen])

/-- C8: integrating with a non-positive time step reports an error and
leaves the system (every trajectory) unchanged, and a successful
`Integrate` appends one common list of time stamps to every trajectory, so
no partial per-step mutation can leave trajectories with inconsistent time
stamps across bodies for the same simulated instant. -/
theorem integrate_nonpositive_step_rejected_atomically (σ : Type)
    (step : List σ → List σ) (hstep : ∀ l, (step l).length = l.length)
    (sys : NBodySystem σ) (tmax Δt : ℚ) (sp : ℕ) :
    (Δt ≤ 0 → NBodySystem.Integrate step sys tmax Δt sp
        = (some IntegrationError.nonPositiveStep, sys)) ∧
    ((NBodySystem.Integrate step sys tmax Δt sp).1 = none →
      ∃ ts : List ℚ,
        (NBodySystem.Integrate step sys tmax Δt sp).2.trajectories.map
            Trajectory.times
          = sys.trajectories.map (fun tr => tr.times ++ ts)) := by
  constructor
  · intro h
    rw [NBodySystem.Integrate, if_pos h]
  · rw [NBodySystem.Integrate]
    by_cases h1 : Δt ≤ 0
    · rw [if_pos h1]; intro h; simp at h
    rw [if_neg h1]
    by_cases h2 : sp = 0
    · rw [if_pos h2]; intro h; simp at h
    rw [if_neg h2]
    cases hls : lastSamples sys.trajectories with
    | none => intro h; simp at h
    | some ls =>
      intro _
      have hlen : (ls.map Prod.snd).length = sys.trajectories.length := by
        rw [List.length_map]
        exact lastSamples_length hls
      exact integrateLoop_times step hstep Δt sp _ 0 _ _ _ hlen

/-- Witness for C8: a concrete one-body system rejects the step Δt = -1
untouched, and a successful integration with Δt = 1 extends the single
trajectory's times by a common suffix. -/
theorem integrate_nonpositive_step_rejected_atomically_witness :
    (NBodySystem.Integrate (fun l => l)
        (⟨[⟨[((0 : ℚ), ())]⟩]⟩ : NBodySystem Unit) 1 (-1) 1
      = (some IntegrationError.nonPositiveStep, ⟨[⟨[(0, ())]⟩]⟩)) ∧
    (∃ ts : List ℚ,
      (NBodySystem.Integrate (fun l => l)
            (⟨[⟨[((0 : ℚ), ())]⟩]⟩ : NBodySystem Unit) 1 1 1).2.trajectories.map
          Trajectory.times
        = [⟨[((0 : ℚ), ())]⟩].map (fun tr : Trajectory Unit => tr.times ++ ts)) :=
  ⟨(integrate_nonpositive_step_rejected_atomically Unit (fun l => l)
      (fun _ => rfl) ⟨[⟨[(0, ())]⟩]⟩ 1 (-1) 1).1 (by norm_num),
    (integrate_nonpositive_step_rejected_atomically Unit (fun l => l)
      (fun _ => rfl) ⟨[⟨[(0, ())]⟩]⟩ 1 1 1).2 (by rfl)⟩

/-- An IEEE-754 double modelled by its 64-bit pattern: the sign bit (`true`
when set, i.e. a negative sign) and the 63 exponent-plus-mantissa bits
(`mag`, a natural below 2^63).  The value map is injective on same-sign
patterns and strictly monotone in `mag`, which is all `ULPDistance`
depends on. -/
structure Double where
  sign : Bool
  mag : ℕ
deriving DecidableEq

/-- The bit pattern of +0.0. -/
def posZero : Double := ⟨false, 0⟩

/-- The bit pattern of -0.0. -/
def negZero : Double := ⟨true, 0⟩

/-- A pattern is a NaN when its exponent bits are all ones and its mantissa
is nonzero, i.e. when `mag` exceeds 0x7FF0000000000000 = 2^63 - 2^52. -/
def Double.isNaN (d : Double) : Bool :=
  decide (2 ^ 63 - 2 ^ 52 < d.mag)

/-- IEEE-754 equality (the C++ `==` on doubles): a NaN is unequal to
everything including itself, +0.0 equals -0.0, and otherwise two doubles
are equal exactly when their sign and magnitude bits coincide. -/
def deq (x y : Double) : Bool :=
  if x.isNaN = true ∨ y.isNaN = true then false
  else if x.mag = 0 ∧ y.mag = 0 then true
  else decide (x.sign = y.sign ∧ x.mag = y.mag)

/-- The bit pattern reinterpreted as a two's-complement `std::int64_t` (the
`Qword` union of `numerics_body.hpp`): with the sign bit set the signed
value is `mag - 2^63`. -/
def Double.longValue (d : Double) : ℤ :=
  if d.sign then (d.mag : ℤ) - 2 ^ 63 else (d.mag : ℤ)

/-- The same-sign branch of `ULPDistance`: zero when the operands compare
equal, otherwise the absolute difference of their int64
reinterpretations. -/
def ULPDistanceSameSign (x y : Double) : ℤ :=
  if deq x y then 0 else ((x.longValue - y.longValue).natAbs : ℤ)

/-- `ULPDistance` from `testing_utilities/numerics_body.hpp`: zero for
`==`-equal operands; for same-sign operands the absolute difference of the
int64 reinterpretations; for opposite-sign operands the sum of the
distances of the non-negative one to +0.0 and of the negative one to -0.0
(the recursive calls are on same-sign operands, inlined here as
`ULPDistanceSameSign`). -/
def ULPDistance (x y : Double) : ℤ :=
  if deq x y then 0
  else if x.sign = y.sign then ((x.longValue - y.longValue).natAbs : ℤ)
  else
    ULPDistanceSameSign (if x.sign then y else x) posZero +
      ULPDistanceSameSign (if x.sign then x else y) negZero

/-- On same-sign operands `ULPDistance` is exactly its same-sign branch, so
the inlining of the recursive calls in `ULPDistance` is faithful. -/
theorem ULPDistance_eq_same_sign (x y : Double) (h : x.sign = y.sign) :
    ULPDistance x y = ULPDistanceSameSign x y := by
  by_cases hd : deq x y = true <;>
    simp [ULPDistance, ULPDistanceSameSign, hd, h]

/-- Characterization of IEEE equality on bit patterns. -/
theorem deq_eq_true_iff (x y : Double) :
    deq x y = true ↔
      x.isNaN = false ∧ y.isNaN = false ∧
        ((x.mag = 0 ∧ y.mag = 0) ∨ (x.sign = y.sign ∧ x.mag = y.mag)) := by
  rw [deq]
  by_cases h1 : x.isNaN = true ∨ y.isNaN = true
  · rw [if_pos h1]
    simp only [Bool.false_eq_true, false_iff]
    rintro ⟨hx, hy, -⟩
    rcases h1 with h | h
    · rw [hx] at h; cases h
    · rw [hy] at h; cases h
  · rw [if_neg h1]
    push_neg at h1
    obtain ⟨hx, hy⟩ := h1
    have hx' : x.isNaN = false := by simpa using hx
    have hy' : y.isNaN = false := by simpa using hy
    by_cases h2 : x.mag = 0 ∧ y.mag = 0
    · rw [if_pos h2]
      simp [hx', hy', h2]
    · rw [if_neg h2]
      simp [hx', hy', h2]

/-- IEEE equality is symmetric. -/
theorem deq_comm (x y : Double) : deq x y = deq y x := by
  by_cases h : deq x y = true
  · obtain ⟨ha, hb, hc⟩ := (deq_eq_true_iff x y).mp h
    rw [h, Eq.comm, deq_eq_true_iff]
    exact ⟨hb, ha, by tauto⟩
  · have h' : ¬deq y x = true := by
      intro hc
      obtain ⟨ha, hb, hd⟩ := (deq_eq_true_iff y x).mp hc
      exact h ((deq_eq_true_iff x y).mpr ⟨hb, ha, by tauto⟩)
    rw [Bool.not_eq_true] at h h'
    rw [h, h']

/-- The same-sign distance is nonnegative. -/
theorem ULPDistanceSameSign_nonneg (x y : Double) :
    0 ≤ ULPDistanceSameSign x y := by
  rw [ULPDistanceSameSign]
  by_cases h : deq x y = true
  · rw [if_pos h]
  · rw [if_neg h]
    exact Int.natCast_nonneg _

/-- For a non-NaN pattern with a clear sign bit, the distance to +0.0
vanishes exactly when the magnitude bits vanish. -/
theorem ULPDistanceSameSign_posZero_eq_zero_iff (p : Double)
    (hp : p.isNaN = false) (hps : p.sign = false) :
    (ULPDistanceSameSign p posZero = 0 ↔ p.mag = 0) := by
  rw [ULPDistanceSameSign]
  by_cases h : deq p posZero = true
  · rw [if_pos h]
    obtain ⟨-, -, hc⟩ := (deq_eq_true_iff p posZero).mp h
    simp only [posZero] at hc
    simp only [true_iff]
    tauto
  · rw [if_neg h]
    constructor
    · intro hz
      have : p.longValue - posZero.longValue = 0 := by
        have := Int.natAbs_eq_zero.mp (by exact_mod_cast hz)
        exact this
      rw [Double.longValue, Double.longValue, if_neg (by simp [hps]),
        if_neg (by simp [posZero])] at this
      simpa [posZero] using this
    · intro hz
      exact absurd ((deq_eq_true_iff p posZero).mpr
        ⟨hp, by decide, Or.inl ⟨hz, rfl⟩⟩) h

/-- For a non-NaN pattern with a set sign bit, the distance to -0.0
vanishes exactly when the magnitude bits vanish. -/
theorem ULPDistanceSameSign_negZero_eq_zero_iff (n : Double)
    (hn : n.isNaN = false) (hns : n.sign = true) :
    (ULPDistanceSameSign n negZero = 0 ↔ n.mag = 0) := by
  rw [ULPDistanceSameSign]
  by_cases h : deq n negZero = true
  · rw [if_pos h]
    obtain ⟨-, -, hc⟩ := (deq_eq_true_iff n negZero).mp h
    simp only [negZero] at hc
    simp only [true_iff]
    tauto
  · rw [if_neg h]
    constructor
    · intro hz
      have h0 : n.longValue - negZero.longValue = 0 := by
        have := Int.natAbs_eq_zero.mp (by exact_mod_cast hz)
        exact this
      rw [Double.longValue, Double.longValue, if_pos hns,
        if_pos (by decide : negZero.sign = true)] at h0
      have : (n.mag : ℤ) = (negZero.mag : ℤ) := by linarith
      simpa [negZero] using this
    · intro hz
      exact absurd ((deq_eq_true_iff n negZero).mpr
        ⟨hn, by decide, Or.inl ⟨hz, rfl⟩⟩) h

/-- Absolute values of opposite differences agree. -/
theorem natAbs_sub_swap (a b : ℤ) : (a - b).natAbs = (b - a).natAbs := by
  rw [← Int.natAbs_neg, neg_sub]

/-- C10 counterexample: at the quiet-NaN bit pattern 0x7FF8000000000000
(sign clear, mag = 2^63 - 2^51) the claim as stated fails:
`ULPDistance(NaN, NaN) = 0` although `NaN == NaN` is false, so a zero
distance does not imply equality as doubles. -/
theorem ulp_distance_zero_at_nan :
    ULPDistance ⟨false, 2 ^ 63 - 2 ^ 51⟩ ⟨false, 2 ^ 63 - 2 ^ 51⟩ = 0 ∧
      deq ⟨false, 2 ^ 63 - 2 ^ 51⟩ ⟨false, 2 ^ 63 - 2 ^ 51⟩ = false := by
  constructor <;> decide

/-- C10 (amended): for all doubles x and y, `ULPDistance` is symmetric and
`ULPDistance(+0.0, -0.0) = 0`; for non-NaN x and y, `ULPDistance(x,y) = 0`
if and only if `x == y` as doubles; and for x and y of opposite sign the
distance decomposes as the distance from the sign-clear one to +0.0 plus
the distance from the sign-set one to -0.0.  (For NaN operands the
zero-iff-equality direction fails, as `ULPDistance(NaN,NaN) = 0`.) -/
theorem ulp_distance_symmetry_zero_iff_decomposition (x y : Double) :
    ULPDistance x y = ULPDistance y x ∧
    ULPDistance posZero negZero = 0 ∧
    (x.isNaN = false → y.isNaN = false →
      (ULPDistance x y = 0 ↔ deq x y = true)) ∧
    (x.sign ≠ y.sign →
      ULPDistance x y =
        ULPDistance (if x.sign then y else x) posZero +
          ULPDistance (if x.sign then x else y) negZero) := by
  refine ⟨?_, by decide, ?_, ?_⟩
  · by_cases hd : deq x y = true
    · have hd' : deq y x = true := by rw [← deq_comm]; exact hd
      simp [ULPDistance, hd, hd']
    · have hd' : ¬deq y x = true := by rw [← deq_comm]; exact hd
      by_cases hs : x.sign = y.sign
      · have habs : (x.longValue - y.longValue).natAbs
            = (y.longValue - x.longValue).natAbs := natAbs_sub_swap _ _
        simp [ULPDistance, hd, hd', hs, habs]
      · have hs' : ¬y.sign = x.sign := fun h => hs h.symm
        cases hxs : x.sign <;> cases hys : y.sign <;>
          simp_all [ULPDistance]
  · intro hx hy
    constructor
    · intro h0
      by_contra hd
      by_cases hs : x.sign = y.sign
      · rw [ULPDistance, if_neg hd, if_pos hs] at h0
        have hl : x.longValue = y.longValue := by
          have := Int.natAbs_eq_zero.mp (by exact_mod_cast h0)
          linarith
        have hmag : x.mag = y.mag := by
          rw [Double.longValue, Double.longValue, hs] at hl
          cases hb : y.sign <;> rw [hb] at hl <;> simp at hl <;> omega
        exact hd ((deq_eq_true_iff x y).mpr ⟨hx, hy, Or.inr ⟨hs, hmag⟩⟩)
      · rw [ULPDistance, if_neg hd, if_neg hs] at h0
        cases hxs : x.sign
        · have hys : y.sign = true := by
            cases hyb : y.sign
            · exact absurd (hxs.trans hyb.symm) hs
            · rfl
          simp only [hxs, Bool.false_eq_true, if_false] at h0
          have h1 := ULPDistanceSameSign_nonneg x posZero
          have h2 := ULPDistanceSameSign_nonneg y negZero
          have e1 : ULPDistanceSameSign x posZero = 0 := by linarith
          have e2 : ULPDistanceSameSign y negZero = 0 := by linarith
          have m1 := (ULPDistanceSameSign_posZero_eq_zero_iff x hx hxs).mp e1
          have m2 := (ULPDistanceSameSign_negZero_eq_zero_iff y hy hys).mp e2
          exact hd ((deq_eq_true_iff x y).mpr ⟨hx, hy, Or.inl ⟨m1, m2⟩⟩)
        · have hys : y.sign = false := by
            cases hyb : y.sign
            · rfl
            · exact absurd (hxs.trans hyb.symm) hs
          simp only [hxs, if_true] at h0
          have h1 := ULPDistanceSameSign_nonneg y posZero
          have h2 := ULPDistanceSameSign_nonneg x negZero
          have e1 : ULPDistanceSameSign y posZero = 0 := by linarith
          have e2 : ULPDistanceSameSign x negZero = 0 := by linarith
          have m1 := (ULPDistanceSameSign_posZero_eq_zero_iff y hy hys).mp e1
          have m2 := (ULPDistanceSameSign_negZero_eq_zero_iff x hx hxs).mp e2
          exact hd ((deq_eq_true_iff x y).mpr ⟨hx, hy, Or.inl ⟨m2, m1⟩⟩)
    · intro hd
      rw [ULPDistance, if_pos hd]
  · intro hs
    by_cases hd : deq x y = true
    · obtain ⟨hx, hy, hc⟩ := (deq_eq_true_iff x y).mp hd
      have hm : x.mag = 0 ∧ y.mag = 0 := by tauto
      cases hxs : x.sign
      · have d1 : deq x posZero = true := (deq_eq_true_iff _ _).mpr
          ⟨hx, by decide, Or.inl ⟨hm.1, rfl⟩⟩
        have d2 : deq y negZero = true := (deq_eq_true_iff _ _).mpr
          ⟨hy, by decide, Or.inl ⟨hm.2, rfl⟩⟩
        simp [ULPDistance, hd, hxs, d1, d2]
      · have d1 : deq y posZero = true := (deq_eq_true_iff _ _).mpr
          ⟨hy, by decide, Or.inl ⟨hm.2, rfl⟩⟩
        have d2 : deq x negZero = true := (deq_eq_true_iff _ _).mpr
          ⟨hx, by decide, Or.inl ⟨hm.1, rfl⟩⟩
        simp [ULPDistance, hd, hxs, d1, d2]
    · rw [ULPDistance, if_neg hd, if_neg (fun h => hs h)]
      cases hxs : x.sign
      · have hys : y.sign = true := by
          cases hyb : y.sign
          · exact absurd (hxs.trans hyb.symm) hs
          · rfl
        show ULPDistanceSameSign x posZero + ULPDistanceSameSign y negZero =
          ULPDistance x posZero + ULPDistance y negZero
        rw [ULPDistance_eq_same_sign x posZero (by rw [hxs]; rfl),
          ULPDistance_eq_same_sign y negZero (by rw [hys]; rfl)]
      · have hys : y.sign = false := by
          cases hyb : y.sign
          · rfl
          · exact absurd (hxs.trans hyb.symm) hs
        show ULPDistanceSameSign y posZero + ULPDistanceSameSign x negZero =
          ULPDistance y posZero + ULPDistance x negZero
        rw [ULPDistance_eq_same_sign y posZero (by rw [hys]; rfl),
          ULPDistance_eq_same_sign x negZero (by rw [hxs]; rfl)]

/-- Witness for the amended C10 at the concrete patterns ⟨false, 5⟩ (a
small positive double) and ⟨true, 7⟩ (a small negative double). -/
theorem ulp_distance_symmetry_zero_iff_decomposition_witness :
    (ULPDistance ⟨false, 5⟩ ⟨true, 7⟩ = ULPDistance ⟨true, 7⟩ ⟨false, 5⟩) ∧
    ULPDistance posZero negZero = 0 ∧
    (ULPDistance ⟨false, 5⟩ ⟨true, 7⟩ = 0 ↔
      deq ⟨false, 5⟩ ⟨true, 7⟩ = true) ∧
    (ULPDistance ⟨false, 5⟩ ⟨true, 7⟩ =
      ULPDistance ⟨false, 5⟩ posZero + ULPDistance ⟨true, 7⟩ negZero) :=
  have h := ulp_distance_symmetry_zero_iff_decomposition ⟨false, 5⟩ ⟨true, 7⟩
  ⟨h.1, h.2.1, h.2.2.1 (by decide) (by decide), h.2.2.2 (by decide)⟩

end Principia
